import Mathlib

/-
Verification development for the dscompress tool (dscompress.cpp) of the
dysco repository.  The tool replaces columns of a casacore measurement set
by columns managed by the Dysco compression storage manager.  The embedding
below models the orchestration in dscompress.cpp: command-line parsing,
the flag-to-NaN preprocessing pass, and the prepare / create / move /
reorder migration phases.  Parts of the repository that are consumed by
dscompress.cpp but whose sources are outside src/ (StManModifier,
DyscoStMan internals) are modelled from the specification; each such
definition carries a doc comment starting with the words Modelled from
the spec.
-/

namespace Dysco

/-- Model of an IEEE-754 single-precision float as used by dscompress.
The tool never computes with float values: it only copies them around and
overwrites flagged cells with the quiet-NaN sentinel, so a symbolic model
with a distinguished quiet-NaN constructor and opaque other values is
faithful to every operation the source performs on floats. -/
inductive F32 where
  | qNaN : F32
  | val : Nat → F32
deriving DecidableEq, Repr

/-- Model of std::complex of float: a pair of real and imaginary parts. -/
structure Complex32 where
  re : F32
  im : F32
deriving DecidableEq, Repr

/-- The sentinel written by line 243 of dscompress.cpp:
std::complex of float with quiet-NaN real and imaginary parts. -/
def nanComplex : Complex32 := ⟨F32.qNaN, F32.qNaN⟩

/-- The DyscoDistribution enumeration (dyscodistribution.h). -/
inductive DyscoDistribution where
  | GaussianDistribution
  | UniformDistribution
  | StudentsTDistribution
  | TruncatedGaussianDistribution
deriving DecidableEq, Repr

/-- The DyscoNormalization enumeration (dysconormalization.h). -/
inductive DyscoNormalization where
  | AFNormalization
  | RFNormalization
  | RowNormalization
deriving DecidableEq, Repr

/-- The distribution configured on a DyscoStMan instance, together with its
numeric parameter where the distribution has one. -/
inductive DistSetting where
  | gaussian
  | uniform
  | studentsT (nu : Rat)
  | truncatedGaussian (truncation : Rat)
deriving DecidableEq, Repr

/-- Configuration state of a DyscoStMan storage-manager instance: the two
bit-widths given to the constructor and the distribution and normalization
chosen through the setters.  Before a setter has run the corresponding
field is none. -/
structure DyscoStMan where
  dataBitCount : Nat
  weightBitCount : Nat
  distribution : Option DistSetting
  normalization : Option DyscoNormalization
deriving DecidableEq, Repr

/-- Modelled from the spec: the DyscoStMan constructor is not under src/.
Per the spec, constructing a manager with data bit-width or weight
bit-width of 0 is invalid configuration and must fail; otherwise the
manager starts with the given bit-widths and no distribution or
normalization chosen yet. -/
def mkDyscoStMan (dataBits weightBits : Nat) : Option DyscoStMan :=
  if dataBits = 0 ∨ weightBits = 0 then none
  else some ⟨dataBits, weightBits, none, none⟩

/-- Modelled from the spec: DyscoStMan.SetGaussianDistribution, a
mutually exclusive distribution setter that overwrites any prior choice. -/
def DyscoStMan.SetGaussianDistribution (m : DyscoStMan) : DyscoStMan :=
  { m with distribution := some DistSetting.gaussian }

/-- Modelled from the spec: DyscoStMan.SetUniformDistribution. -/
def DyscoStMan.SetUniformDistribution (m : DyscoStMan) : DyscoStMan :=
  { m with distribution := some DistSetting.uniform }

/-- Modelled from the spec: DyscoStMan.SetStudentsTDistribution.  Per the
spec a degrees-of-freedom parameter that is not positive is invalid
configuration and must fail. -/
def DyscoStMan.SetStudentsTDistribution (m : DyscoStMan) (nu : Rat) :
    Option DyscoStMan :=
  if nu ≤ 0 then none
  else some { m with distribution := some (DistSetting.studentsT nu) }

/-- Modelled from the spec: DyscoStMan.SetTruncatedGaussianDistribution.
Per the spec a truncation parameter that is not positive is invalid
configuration and must fail. -/
def DyscoStMan.SetTruncatedGaussianDistribution (m : DyscoStMan)
    (truncation : Rat) : Option DyscoStMan :=
  if truncation ≤ 0 then none
  else some { m with distribution := some (DistSetting.truncatedGaussian truncation) }

/-- Modelled from the spec: DyscoStMan.SetNormalization, the normalization
setter. -/
def DyscoStMan.SetNormalization (m : DyscoStMan) (n : DyscoNormalization) :
    DyscoStMan :=
  { m with normalization := some n }

/-- A column of the measurement set: the name of the data manager it is
bound to, and its cell data as a list of rows, each row a list of complex
cells.  (The WEIGHT_SPECTRUM column holds scalar floats in casacore; the
tool never reads its values, so the uniform cell type is harmless.) -/
structure MSColumn where
  dataManager : String
  rows : List (List Complex32)
deriving DecidableEq, Repr

/-- The measurement-set table: named data columns, the FLAG column (one
boolean row per table row, parallel to the data rows), and the registered
data managers keyed by data-manager type name. -/
structure MSTable where
  cols : List (String × MSColumn)
  flagRows : List (List Bool)
  dataManagers : List (String × DyscoStMan)
deriving DecidableEq, Repr

/-- Lookup of a column by name (first match). -/
def lookupCol : List (String × MSColumn) → String → Option MSColumn
  | [], _ => none
  | p :: ps, n => if p.1 = n then some p.2 else lookupCol ps n

/-- Column lookup on a table, as done by the casacore ArrayColumn
constructor; a missing name is an error in casacore. -/
def MSTable.getCol (t : MSTable) (n : String) : Option MSColumn :=
  lookupCol t.cols n

/-- Replace the rows of the named column (first match). -/
def setRowsIn : List (String × MSColumn) → String → List (List Complex32) →
    List (String × MSColumn)
  | [], _, _ => []
  | p :: ps, n, rs =>
    if p.1 = n then (p.1, { p.2 with rows := rs }) :: ps
    else p :: setRowsIn ps n rs

/-- Table update writing new rows into the named column. -/
def MSTable.setColRows (t : MSTable) (n : String)
    (rs : List (List Complex32)) : MSTable :=
  { t with cols := setRowsIn t.cols n rs }

/-- Rebind the named column to the given data manager, creating the column
when absent (casacore addColumn semantics; in this model the replacement
column created under the same name keeps the cell values that the
subsequent verbatim MoveColumnData copy establishes). -/
def bindIn : List (String × MSColumn) → String → String →
    List (String × MSColumn)
  | [], n, m => [(n, ⟨m, []⟩)]
  | p :: ps, n, m =>
    if p.1 = n then (p.1, { p.2 with dataManager := m }) :: ps
    else p :: bindIn ps n m

/-- Table update binding the named column to a data manager. -/
def MSTable.bindColumn (t : MSTable) (n m : String) : MSTable :=
  { t with cols := bindIn t.cols n m }

/-- Existence test for a registered data manager, as casacore
findDataManager: the call throws exactly when no manager with that type
name exists on the table. -/
def MSTable.hasDataManager (t : MSTable) (n : String) : Bool :=
  t.dataManagers.any (fun p => p.1 == n)

/-- Observable events of one dscompress run, in program order. -/
inductive Event where
  | openTable
  | putRow (column : String) (row : Nat)
  | prepareCall (column : String) (replaced : Bool)
  | queryManager
  | managerCreated (dataBits weightBits : Nat)
  | setGaussianDistributionEv
  | setUniformDistributionEv
  | setStudentsTDistributionEv (nu : Rat)
  | setTruncatedGaussianDistributionEv (truncation : Rat)
  | setNormalizationEv (n : DyscoNormalization)
  | addColumnEv (column : String) (usedExisting : Bool)
  | moveColumnDataEv (column : String)
  | reorderEv
deriving DecidableEq, Repr

/-- Event classifier: a preprocessing write-back (dataCol.put, line 249). -/
def Event.isPreWrite : Event → Bool
  | Event.putRow _ _ => true
  | _ => false

/-- Event classifier: any migration step (manager query or creation,
configuration setter, column creation or redefinition, data move,
reorder). -/
def Event.isMigStep : Event → Bool
  | Event.prepareCall _ _ => true
  | Event.queryManager => true
  | Event.managerCreated _ _ => true
  | Event.setGaussianDistributionEv => true
  | Event.setUniformDistributionEv => true
  | Event.setStudentsTDistributionEv _ => true
  | Event.setTruncatedGaussianDistributionEv _ => true
  | Event.setNormalizationEv _ => true
  | Event.addColumnEv _ _ => true
  | Event.moveColumnDataEv _ => true
  | Event.reorderEv => true
  | _ => false

/-- Event classifier: construction of a new storage manager. -/
def Event.isManagerCreation : Event → Bool
  | Event.managerCreated _ _ => true
  | _ => false

/-- Event classifier: a column creation or redefinition. -/
def Event.isColumnAdd : Event → Bool
  | Event.addColumnEv _ _ => true
  | _ => false

/-- Event classifier: a data move. -/
def Event.isDataMove : Event → Bool
  | Event.moveColumnDataEv _ => true
  | _ => false

/-- Event classifier: the table compaction. -/
def Event.isReorder : Event → Bool
  | Event.reorderEv => true
  | _ => false

/-- Event classifier: one of the four distribution setters. -/
def Event.isDistributionSetter : Event → Bool
  | Event.setGaussianDistributionEv => true
  | Event.setUniformDistributionEv => true
  | Event.setStudentsTDistributionEv _ => true
  | Event.setTruncatedGaussianDistributionEv _ => true
  | _ => false

/-- Event classifier: the normalization setter. -/
def Event.isNormalizationSetter : Event → Bool
  | Event.setNormalizationEv _ => true
  | _ => false

/-- The inner cell loop of the preprocessing pass (dscompress.cpp lines
238-247): walk the data cells with the flag iterator advancing in
lockstep; a cell whose flag is true is overwritten with the quiet-NaN
sentinel and the isChanged bit is set.  Returns the rewritten cell vector
and the final isChanged bit. -/
def processCells : List Complex32 → List Bool → List Complex32 × Bool
  | [], _ => ([], false)
  | d :: ds, [] => (d :: ds, false)
  | d :: ds, f :: fs =>
    let rest := processCells ds fs
    if f then (nanComplex :: rest.1, true) else (d :: rest.1, rest.2)

/-- The cell vector produced by the inner loop. -/
def sentinelCells (ds : List Complex32) (fs : List Bool) : List Complex32 :=
  (processCells ds fs).1

/-- The row loop of the preprocessing pass (dscompress.cpp lines 234-250):
for each row read the data vector and the flag vector, run the cell loop,
and put the row back only when the isChanged bit is set (emitting a putRow
event).  The first argument names the column, the last is the current row
index. -/
def processRows (name : String) :
    List (List Complex32) → List (List Bool) → Nat →
    List (List Complex32) × List Event
  | [], _, _ => ([], [])
  | r :: rs, [], _ => (r :: rs, [])
  | r :: rs, f :: fs, i =>
    let pc := processCells r f
    let rest := processRows name rs fs (i + 1)
    ((if pc.2 then pc.1 else r) :: rest.1,
     (if pc.2 then [Event.putRow name i] else []) ++ rest.2)

/-- The per-column body of the preprocessing pass (dscompress.cpp lines
228-251): a column named WEIGHT_SPECTRUM is skipped entirely; any other
requested column is looked up (the ArrayColumn constructor throws when it
is missing) and its rows are rewritten by the row loop against the FLAG
column.  Returns the emitted events, the updated table, and an error when
the lookup failed. -/
def processColumnStep (t : MSTable) (columnName : String) :
    List Event × MSTable × Option String :=
  if columnName = "WEIGHT_SPECTRUM" then ([], t, none)
  else
    match t.getCol columnName with
    | none => ([], t, some ("Table column is unknown: " ++ columnName))
    | some col =>
      let pr := processRows columnName col.rows t.flagRows 0
      (pr.2, t.setColRows columnName pr.1, none)

/-- The preprocessing pass over all requested columns (dscompress.cpp
lines 226-252), stopping at the first error. -/
def preprocessPass (t : MSTable) : List String →
    List Event × MSTable × Option String
  | [] => ([], t, none)
  | c :: cs =>
    let s := processColumnStep t c
    match s.2.2 with
    | some e => (s.1, s.2.1, some e)
    | none =>
      let rest := preprocessPass s.2.1 cs
      (s.1 ++ rest.1, rest.2.1, rest.2.2)

/-- Cell rewriting performed by the whole preprocessing row loop, one row
at a time; rows beyond the flag rows are untouched (the row loop runs
over the table row count, which bounds both lists). -/
def sentinelRows : List (List Complex32) → List (List Bool) →
    List (List Complex32)
  | [], _ => []
  | r :: rs, [] => r :: rs
  | r :: rs, f :: fs => sentinelCells r f :: sentinelRows rs fs

/-- The createDyscoStManColumn function of dscompress.cpp (lines 17-59):
query the table for a manager of type name DyscoStMan; when it exists, add
the column through the existing manager without touching any
configuration; when it is absent, construct a DyscoStMan with the given
bit-widths, apply the distribution switch and the normalization setter,
and add the column registering the new manager.  The shape argument is
the fixed per-row cell count of the column description.  Returns the
emitted events, the updated table, and an error when construction or a
setter failed (the failure propagates out of the function as in the
source, where only the findDataManager exception is caught). -/
def createDyscoStManColumn (t : MSTable) (name : String) (shape : Nat)
    (bitsPerComplex bitsPerWeight : Nat) (normalization : DyscoNormalization)
    (distribution : DyscoDistribution) (studentsTNu distributionTruncation : Rat) :
    List Event × MSTable × Option String :=
  if t.hasDataManager "DyscoStMan" then
    ([Event.queryManager, Event.addColumnEv name true],
     t.bindColumn name "DyscoStMan", none)
  else
    match mkDyscoStMan bitsPerComplex bitsPerWeight with
    | none => ([Event.queryManager], t, some "invalid bit count")
    | some m0 =>
      let setter : Event × Option DyscoStMan :=
        match distribution with
        | DyscoDistribution.GaussianDistribution =>
          (Event.setGaussianDistributionEv, some m0.SetGaussianDistribution)
        | DyscoDistribution.UniformDistribution =>
          (Event.setUniformDistributionEv, some m0.SetUniformDistribution)
        | DyscoDistribution.StudentsTDistribution =>
          (Event.setStudentsTDistributionEv studentsTNu,
           m0.SetStudentsTDistribution studentsTNu)
        | DyscoDistribution.TruncatedGaussianDistribution =>
          (Event.setTruncatedGaussianDistributionEv distributionTruncation,
           m0.SetTruncatedGaussianDistribution distributionTruncation)
      match setter.2 with
      | none =>
        ([Event.queryManager, Event.managerCreated bitsPerComplex bitsPerWeight],
         t, some "invalid distribution parameter")
      | some m1 =>
        let m2 := m1.SetNormalization normalization
        let t1 := t.bindColumn name "DyscoStMan"
        ([Event.queryManager, Event.managerCreated bitsPerComplex bitsPerWeight,
          setter.1, Event.setNormalizationEv normalization,
          Event.addColumnEv name false],
         { t1 with dataManagers := t1.dataManagers ++ [("DyscoStMan", m2)] },
         none)

/-- Modelled from the spec: StManModifier.PrepareReplacingColumn is not
under src/.  Per the spec the Prepared step inspects the current storage
manager of the column; when it is already the target manager type the
column is marked as not needing replacement and nothing is touched,
otherwise its shape is recorded (here the fixed cell count of the first
row).  A missing column is an error. -/
def prepareReplacingColumn (t : MSTable) (name : String) (shape : Nat) :
    Option (Bool × Nat) :=
  match t.getCol name with
  | none => none
  | some col =>
    if col.dataManager = "DyscoStMan" then some (false, shape)
    else some (true, (col.rows.headD []).length)

/-- Modelled from the spec: StManModifier.MoveColumnData is not under
src/.  Per the spec it copies every row value from the old column
instance to the new column instance verbatim; in this model the
replacement column lives under the same name and the verbatim copy leaves
the logical cell values unchanged, so the table state is unchanged and a
moveColumnDataEv event is emitted. -/
def moveColumnData (t : MSTable) (name : String) : List Event × MSTable :=
  ([Event.moveColumnDataEv name], t)

/-- Modelled from the spec: StManModifier.Reorder is not under src/.  Per
the spec it rewrites the physical table, re-reading and re-writing the
data through the new compressed column so quantization is re-applied
(abstracted as the requant map on cells), while the flag column is a
read-only input that is copied with its values unchanged. -/
def reorderTable (requant : Complex32 → Complex32) (t : MSTable) : MSTable :=
  { t with
    cols := t.cols.map (fun p =>
      (p.1, { p.2 with rows := p.2.rows.map (fun r => r.map requant) })) }

/-- Options produced by the command line loop of main
(dscompress.cpp lines 110-116 defaults, 118-173 parsing loop). -/
structure CmdOptions where
  distribution : DyscoDistribution
  normalization : DyscoNormalization
  reorder : Bool
  bitsPerFloat : Nat
  bitsPerWeight : Nat
  distributionTruncation : Rat
  columnNames : List String
deriving DecidableEq, Repr

/-- The defaults set before the parsing loop (lines 110-116). -/
def initOptions : CmdOptions :=
  { distribution := DyscoDistribution.TruncatedGaussianDistribution
    normalization := DyscoNormalization.AFNormalization
    reorder := false
    bitsPerFloat := 8
    bitsPerWeight := 12
    distributionTruncation := ⟨5, 2, by decide, by decide⟩
    columnNames := [] }

/-- Decimal digit run consumed by atoi: accumulate digits, stop at the
first character that is not a digit. -/
def digitsToNat : List Char → Nat → Nat
  | c :: cs, acc =>
    if c.isDigit then digitsToNat cs (acc * 10 + (c.toNat - 48)) else acc
  | [], acc => acc

/-- Model of the C library atoi: skip leading whitespace, an optional
sign, then a run of decimal digits (zero when no digit follows). -/
def atoi (s : String) : Int :=
  let cs := s.toList.dropWhile
    (fun c => c == ' ' || c == '\t' || c == '\n' || c == '\r')
  match cs with
  | '-' :: rest => -(digitsToNat rest 0 : Int)
  | '+' :: rest => (digitsToNat rest 0 : Int)
  | _ => (digitsToNat cs 0 : Int)

/-- Conversion of the int returned by atoi to the unsigned variables of
main, as the C implicit conversion modulo 2 to the 32. -/
def toUnsigned32 (x : Int) : Nat := (x % (2 ^ 32 : Int)).toNat

/-- Value of a digit run, most significant first. -/
def natOfDigits (ds : List Char) : Nat :=
  ds.foldl (fun a c => a * 10 + (c.toNat - 48)) 0

/-- Unsigned part of atof: integer digits, then an optional fraction
after a decimal point.  (Exponent notation is not modelled; no code path
of dscompress depends on it.) -/
def atofAbs (cs : List Char) : Rat :=
  let intDigits := cs.takeWhile Char.isDigit
  let rest := cs.dropWhile Char.isDigit
  let ip : Rat := (natOfDigits intDigits : Nat)
  match rest with
  | '.' :: rest2 =>
    let fracDigits := rest2.takeWhile Char.isDigit
    ip + (natOfDigits fracDigits : Rat) / ((10 : Rat) ^ fracDigits.length)
  | _ => ip

/-- Model of the C library atof on decimal literals: skip leading
whitespace and an optional sign, then the unsigned part. -/
def atof (s : String) : Rat :=
  let cs := s.toList.dropWhile
    (fun c => c == ' ' || c == '\t' || c == '\n' || c == '\r')
  match cs with
  | '-' :: rest => -(atofAbs rest)
  | '+' :: rest => atofAbs rest
  | _ => atofAbs cs

/-- The command-line parsing loop of main (lines 118-173) over the
arguments after the program name: consume arguments while they start with
a dash, updating the options; an unknown option is the runtime error of
line 171; a dash option that needs a value but has none left reads past
argv in C and is modelled as an error.  Returns the final options and the
remaining arguments. -/
def parseArgs : List String → CmdOptions →
    Except String (CmdOptions × List String)
  | [], o => Except.ok (o, [])
  | a :: rest, o =>
    match a.data with
    | [] => Except.ok (o, a :: rest)
    | c0 :: cs =>
    if c0 = '-' then
      let p := String.mk cs
      if p = "data-bit-rate" then
        match rest with
        | v :: rest2 =>
          parseArgs rest2 { o with bitsPerFloat := toUnsigned32 (atoi v) }
        | [] => Except.error "missing option value"
      else if p = "weight-bit-rate" then
        match rest with
        | v :: rest2 =>
          parseArgs rest2 { o with bitsPerWeight := toUnsigned32 (atoi v) }
        | [] => Except.error "missing option value"
      else if p = "reorder" then
        parseArgs rest { o with reorder := true }
      else if p = "gaussian" then
        parseArgs rest { o with distribution := DyscoDistribution.GaussianDistribution }
      else if p = "uniform" then
        parseArgs rest { o with distribution := DyscoDistribution.UniformDistribution }
      else if p = "studentt" then
        parseArgs rest { o with distribution := DyscoDistribution.StudentsTDistribution }
      else if p = "truncgaus" then
        match rest with
        | v :: rest2 =>
          parseArgs rest2 { o with
            distribution := DyscoDistribution.TruncatedGaussianDistribution
            distributionTruncation := atof v }
        | [] => Except.error "missing option value"
      else if p = "column" then
        match rest with
        | v :: rest2 =>
          parseArgs rest2 { o with columnNames := o.columnNames ++ [v] }
        | [] => Except.error "missing option value"
      else if p = "rfnormalization" then
        parseArgs rest { o with normalization := DyscoNormalization.RFNormalization }
      else if p = "afnormalization" then
        parseArgs rest { o with normalization := DyscoNormalization.AFNormalization }
      else if p = "rownormalization" then
        parseArgs rest { o with normalization := DyscoNormalization.RowNormalization }
      else Except.error ("Invalid parameter: " ++ a)
    else Except.ok (o, a :: rest)

/-- The column-name default of lines 175-176: when no -column option was
given the DATA column is migrated. -/
def effectiveColumns (o : CmdOptions) : List String :=
  if o.columnNames.isEmpty then ["DATA"] else o.columnNames

/-- The prepare loop of main (lines 259-269): call PrepareReplacingColumn
for every requested column, threading the recorded shape and accumulating
isDataReplaced with replaced or-ed from the left.  Returns the prepareCall
events and, unless a lookup failed, the final isDataReplaced and shape. -/
def prepareLoop (t : MSTable) : List String → Nat → Bool →
    List Event × Option (Bool × Nat)
  | [], shape, acc => ([], some (acc, shape))
  | c :: cs, shape, acc =>
    match prepareReplacingColumn t c shape with
    | none => ([], none)
    | some (replaced, shape2) =>
      let rest := prepareLoop t cs shape2 (replaced || acc)
      (Event.prepareCall c replaced :: rest.1, rest.2)

/-- The column-creation loop of main (lines 272-278): call
createDyscoStManColumn for every requested column with the parsed
bit-widths, normalization and distribution, the Students-T
degrees-of-freedom fixed to the literal 1.0 of the call sites, and the
parsed truncation; stop at the first failure.  (The WEIGHT_SPECTRUM
branch of the source differs only in the casacore element type of the
created column.) -/
def createLoop (t : MSTable) (o : CmdOptions) (shape : Nat) :
    List String → List Event × MSTable × Option String
  | [] => ([], t, none)
  | c :: cs =>
    let r := createDyscoStManColumn t c shape o.bitsPerFloat o.bitsPerWeight
      o.normalization o.distribution 1 o.distributionTruncation
    match r.2.2 with
    | some e => (r.1, r.2.1, some e)
    | none =>
      let rest := createLoop r.2.1 o shape cs
      (r.1 ++ rest.1, rest.2.1, rest.2.2)

/-- The data-move loop of main (lines 279-285): MoveColumnData for every
requested column. -/
def moveLoop (t : MSTable) : List String → List Event × MSTable
  | [] => ([], t)
  | c :: cs =>
    let r := moveColumnData t c
    let rest := moveLoop r.2 cs
    (r.1 ++ rest.1, rest.2)

/-- The migration phase of main (lines 257-290): the prepare loop, then,
only when isDataReplaced is set, the creation loop, the move loop and,
only when the reorder option is set, the table compaction.  Returns the
events, the final table and an error when a step failed. -/
def migrationPhase (requant : Complex32 → Complex32) (o : CmdOptions)
    (cns : List String) (t1 : MSTable) :
    List Event × MSTable × Option String :=
  let pl := prepareLoop t1 cns 0 false
  match pl.2 with
  | none => (pl.1, t1, some "Column is unknown")
  | some (isDataReplaced, shape) =>
    if isDataReplaced then
      let cl := createLoop t1 o shape cns
      match cl.2.2 with
      | some e => (pl.1 ++ cl.1, cl.2.1, some e)
      | none =>
        let ml := moveLoop cl.2.1 cns
        if o.reorder then
          (pl.1 ++ cl.1 ++ ml.1 ++ [Event.reorderEv],
           reorderTable requant ml.2, none)
        else
          (pl.1 ++ cl.1 ++ ml.1, ml.2, none)
    else (pl.1, t1, none)

/-- Result of one dscompress run: the event trace in program order, the
table state when the run ended (also at an error), and the error if one
occurred. -/
structure RunResult where
  trace : List Event
  table : MSTable
  err : Option String
deriving DecidableEq, Repr

/-- The main function of dscompress.cpp over the arguments after the
program name and the initial table behind the measurement-set path: print
usage when no argument is given; parse options (a parse error aborts
before the table is opened); require a measurement-set path; open the
table for update, run the preprocessing pass, then the migration phase.
The requant argument abstracts the quantization that compaction
re-applies to data cells. -/
def dscompressRun (requant : Complex32 → Complex32) (argv1 : List String)
    (t : MSTable) : RunResult :=
  if argv1.isEmpty then ⟨[], t, none⟩
  else
    match parseArgs argv1 initOptions with
    | Except.error e => ⟨[], t, some e⟩
    | Except.ok (o, rest) =>
      match rest with
      | [] => ⟨[], t, some "missing measurement set path"⟩
      | _ :: _ =>
        let cns := effectiveColumns o
        let pp := preprocessPass t cns
        match pp.2.2 with
        | some e => ⟨Event.openTable :: pp.1, pp.2.1, some e⟩
        | none =>
          let m := migrationPhase requant o cns pp.2.1
          ⟨Event.openTable :: (pp.1 ++ m.1), m.2.1, m.2.2⟩

/-- An example table used to instantiate theorems on concrete inputs: a
DATA column on a plain storage manager with one flagged cell, and a
WEIGHT_SPECTRUM column. -/
def exTable : MSTable :=
  { cols :=
      [("DATA",
        ⟨"StandardStMan",
         [[⟨F32.val 1, F32.val 2⟩, ⟨F32.val 3, F32.val 4⟩],
          [⟨F32.val 5, F32.val 6⟩, ⟨F32.val 7, F32.val 8⟩]]⟩),
       ("WEIGHT_SPECTRUM",
        ⟨"StandardStMan",
         [[⟨F32.val 9, F32.val 9⟩, ⟨F32.val 9, F32.val 9⟩],
          [⟨F32.val 9, F32.val 9⟩, ⟨F32.val 9, F32.val 9⟩]]⟩)],
    flagRows := [[true, false], [false, false]],
    dataManagers := [] }

/-- The DATA column of exTable. -/
def exDataCol : MSColumn :=
  ⟨"StandardStMan",
   [[⟨F32.val 1, F32.val 2⟩, ⟨F32.val 3, F32.val 4⟩],
    [⟨F32.val 5, F32.val 6⟩, ⟨F32.val 7, F32.val 8⟩]]⟩

/-- The DATA column of exTable after preprocessing: the one flagged cell
carries the sentinel. -/
def exDataColPost : MSColumn :=
  ⟨"StandardStMan",
   [[nanComplex, ⟨F32.val 3, F32.val 4⟩],
    [⟨F32.val 5, F32.val 6⟩, ⟨F32.val 7, F32.val 8⟩]]⟩

/-- An example table whose DATA column is already bound to DyscoStMan,
with the manager registered: a table on which migration was already run. -/
def exTableMig : MSTable :=
  { cols := [("DATA", ⟨"DyscoStMan", [[⟨F32.val 1, F32.val 2⟩]]⟩)],
    flagRows := [[false]],
    dataManagers :=
      [("DyscoStMan",
        ⟨8, 12, some DistSetting.gaussian,
         some DyscoNormalization.AFNormalization⟩)] }

/-- An example table with no flag set. -/
def exTableNoFlags : MSTable :=
  { cols := [("DATA", ⟨"StandardStMan", [[⟨F32.val 1, F32.val 2⟩]]⟩)],
    flagRows := [[false]],
    dataManagers := [] }

theorem processCells_length (ds : List Complex32) (fs : List Bool) :
    (processCells ds fs).1.length = ds.length := by
  induction ds generalizing fs with
  | nil => cases fs <;> simp [processCells]
  | cons d ds ih =>
    cases fs with
    | nil => simp [processCells]
    | cons f fs => cases f <;> simp [processCells, ih]

theorem processCells_snd_false (ds : List Complex32) (fs : List Bool)
    (h : (processCells ds fs).2 = false) : (processCells ds fs).1 = ds := by
  induction ds generalizing fs with
  | nil => cases fs <;> simp [processCells]
  | cons d ds ih =>
    cases fs with
    | nil => simp [processCells]
    | cons f fs =>
      cases f with
      | false =>
        simp only [processCells] at h ⊢
        simp [ih fs (by simpa using h)]
      | true => simp [processCells] at h

theorem sentinelCells_length (ds : List Complex32) (fs : List Bool) :
    (sentinelCells ds fs).length = ds.length :=
  processCells_length ds fs

theorem sentinelCells_getElem (ds : List Complex32) (fs : List Bool)
    (i : Nat) (hd : i < ds.length) (hf : i < fs.length) :
    ∃ h : i < (sentinelCells ds fs).length,
      (sentinelCells ds fs).get ⟨i, h⟩ =
        if fs.get ⟨i, hf⟩ then nanComplex else ds.get ⟨i, hd⟩ := by
  induction ds generalizing fs i with
  | nil => simp at hd
  | cons d ds ih =>
    cases fs with
    | nil => simp at hf
    | cons f fs =>
      cases i with
      | zero =>
        cases f <;>
          exact ⟨by simp [sentinelCells, processCells_length], by
            simp [sentinelCells, processCells]⟩
      | succ i =>
        have hd2 : i < ds.length := by simpa using hd
        have hf2 : i < fs.length := by simpa using hf
        obtain ⟨h0, hv⟩ := ih fs i hd2 hf2
        cases f with
        | false =>
          refine ⟨by simp [sentinelCells, processCells_length]; omega, ?_⟩
          simpa [sentinelCells, processCells] using hv
        | true =>
          refine ⟨by simp [sentinelCells, processCells_length]; omega, ?_⟩
          simpa [sentinelCells, processCells] using hv

theorem sentinelCells_idem (ds : List Complex32) (fs : List Bool) :
    sentinelCells (sentinelCells ds fs) fs = sentinelCells ds fs := by
  induction ds generalizing fs with
  | nil => cases fs <;> simp [sentinelCells, processCells]
  | cons d ds ih =>
    cases fs with
    | nil => simp [sentinelCells, processCells]
    | cons f fs =>
      cases f <;> simp [sentinelCells, processCells] <;>
        simpa [sentinelCells] using ih fs

theorem processCells_snd_true_exists (ds : List Complex32) (fs : List Bool)
    (h : (processCells ds fs).2 = true) :
    ∃ k, ∃ _ : k < ds.length, ∃ hk : k < fs.length,
      fs.get ⟨k, hk⟩ = true := by
  induction ds generalizing fs with
  | nil => cases fs <;> simp [processCells] at h
  | cons d ds ih =>
    cases fs with
    | nil => simp [processCells] at h
    | cons f fs =>
      cases f with
      | true => exact ⟨0, by simp, by simp, rfl⟩
      | false =>
        simp only [processCells] at h
        obtain ⟨k, hk1, hk2, hv⟩ := ih fs (by simpa using h)
        exact ⟨k + 1, by simpa using hk1, by simpa using hk2, by simpa using hv⟩

theorem processCells_snd_all_false (ds : List Complex32) (fs : List Bool)
    (h : ∀ b ∈ fs, b = false) : (processCells ds fs).2 = false := by
  induction ds generalizing fs with
  | nil => cases fs <;> simp [processCells]
  | cons d ds ih =>
    cases fs with
    | nil => simp [processCells]
    | cons f fs =>
      have hf : f = false := h f (by simp)
      subst hf
      simpa [processCells] using ih fs (fun b hb => h b (by simp [hb]))

theorem sentinelRows_length (rows : List (List Complex32))
    (flags : List (List Bool)) :
    (sentinelRows rows flags).length = rows.length := by
  induction rows generalizing flags with
  | nil => cases flags <;> simp [sentinelRows]
  | cons r rs ih =>
    cases flags with
    | nil => simp [sentinelRows]
    | cons f fs => simp [sentinelRows, ih]

theorem processRows_fst (name : String) (rows : List (List Complex32))
    (flags : List (List Bool)) (i0 : Nat) :
    (processRows name rows flags i0).1 = sentinelRows rows flags := by
  induction rows generalizing flags i0 with
  | nil => cases flags <;> simp [processRows, sentinelRows]
  | cons r rs ih =>
    cases flags with
    | nil => simp [processRows, sentinelRows]
    | cons f fs =>
      simp only [processRows, sentinelRows]
      cases h : (processCells r f).2 with
      | false =>
        simp [h, ih, sentinelCells, processCells_snd_false r f h]
      | true => simp [h, ih, sentinelCells]

theorem sentinelRows_getElem (rows : List (List Complex32))
    (flags : List (List Bool)) (r : Nat)
    (hr : r < rows.length) (hf : r < flags.length) :
    ∃ h : r < (sentinelRows rows flags).length,
      (sentinelRows rows flags).get ⟨r, h⟩ =
        sentinelCells (rows.get ⟨r, hr⟩) (flags.get ⟨r, hf⟩) := by
  induction rows generalizing flags r with
  | nil => simp at hr
  | cons row rs ih =>
    cases flags with
    | nil => simp at hf
    | cons f fs =>
      cases r with
      | zero => exact ⟨by simp [sentinelRows], by simp [sentinelRows]⟩
      | succ r =>
        have hr2 : r < rs.length := by simpa using hr
        have hf2 : r < fs.length := by simpa using hf
        obtain ⟨h0, hv⟩ := ih fs r hr2 hf2
        refine ⟨by simp [sentinelRows]; omega, ?_⟩
        simpa [sentinelRows] using hv

theorem sentinelRows_idem (rows : List (List Complex32))
    (flags : List (List Bool)) :
    sentinelRows (sentinelRows rows flags) flags = sentinelRows rows flags := by
  induction rows generalizing flags with
  | nil => cases flags <;> simp [sentinelRows]
  | cons r rs ih =>
    cases flags with
    | nil => simp [sentinelRows]
    | cons f fs => simp [sentinelRows, sentinelCells_idem, ih]

theorem processRows_events_shape (name : String)
    (rows : List (List Complex32)) (flags : List (List Bool)) (i0 : Nat) :
    ∀ e ∈ (processRows name rows flags i0).2, ∃ j, e = Event.putRow name j := by
  induction rows generalizing flags i0 with
  | nil => cases flags <;> simp [processRows]
  | cons r rs ih =>
    cases flags with
    | nil => simp [processRows]
    | cons f fs =>
      intro e he
      simp only [processRows] at he
      cases hc : (processCells r f).2 with
      | false =>
        simp [hc] at he
        exact ih fs (i0 + 1) e he
      | true =>
        simp [hc] at he
        rcases he with h1 | h2
        · exact ⟨i0, h1⟩
        · exact ih fs (i0 + 1) e h2

theorem processRows_putRow (name : String) (rows : List (List Complex32))
    (flags : List (List Bool)) (i0 j : Nat)
    (h : Event.putRow name j ∈ (processRows name rows flags i0).2) :
    ∃ r, j = i0 + r ∧ ∃ (hr : r < rows.length) (hf : r < flags.length),
      (processCells (rows.get ⟨r, hr⟩) (flags.get ⟨r, hf⟩)).2 = true := by
  induction rows generalizing flags i0 with
  | nil => cases flags <;> simp [processRows] at h
  | cons row rs ih =>
    cases flags with
    | nil => simp [processRows] at h
    | cons f fs =>
      simp only [processRows] at h
      cases hc : (processCells row f).2 with
      | false =>
        simp [hc] at h
        obtain ⟨r, hj, hr, hf, hv⟩ := ih fs (i0 + 1) h
        refine ⟨r + 1, by omega, by simpa using hr, by simpa using hf, ?_⟩
        simpa [List.get_eq_getElem] using hv
      | true =>
        simp [hc] at h
        rcases h with h1 | h2
        · exact ⟨0, by omega, by simp, by simp, by simpa using hc⟩
        · obtain ⟨r, hj, hr, hf, hv⟩ := ih fs (i0 + 1) h2
          refine ⟨r + 1, by omega, by simpa using hr, by simpa using hf, ?_⟩
          simpa [List.get_eq_getElem] using hv

theorem processRows_events_nil (name : String)
    (rows : List (List Complex32)) (flags : List (List Bool)) (i0 : Nat)
    (h : ∀ row ∈ flags, ∀ b ∈ row, b = false) :
    (processRows name rows flags i0).2 = [] := by
  induction rows generalizing flags i0 with
  | nil => cases flags <;> simp [processRows]
  | cons r rs ih =>
    cases flags with
    | nil => simp [processRows]
    | cons f fs =>
      have hc : (processCells r f).2 = false :=
        processCells_snd_all_false r f (fun b hb => h f (by simp) b hb)
      simp [processRows, hc,
        ih fs (i0 + 1) (fun row hrow b hb => h row (by simp [hrow]) b hb)]

theorem lookupCol_setRowsIn_ne (ps : List (String × MSColumn))
    (c n : String) (rs : List (List Complex32)) (h : n ≠ c) :
    lookupCol (setRowsIn ps c rs) n = lookupCol ps n := by
  induction ps with
  | nil => simp [setRowsIn, lookupCol]
  | cons p ps ih =>
    by_cases hc : p.1 = c
    · simp [setRowsIn, lookupCol, hc, Ne.symm h]
    · simp [setRowsIn, lookupCol, hc, ih]

theorem lookupCol_setRowsIn_eq (ps : List (String × MSColumn))
    (c : String) (rs : List (List Complex32)) (col : MSColumn)
    (h : lookupCol ps c = some col) :
    lookupCol (setRowsIn ps c rs) c = some { col with rows := rs } := by
  induction ps with
  | nil => simp [lookupCol] at h
  | cons p ps ih =>
    by_cases hc : p.1 = c
    · simp [lookupCol, hc] at h
      simp [setRowsIn, lookupCol, hc, h]
    · simp [lookupCol, hc] at h
      simp [setRowsIn, lookupCol, hc, ih h]

theorem setColRows_flagRows (t : MSTable) (c : String)
    (rs : List (List Complex32)) :
    (t.setColRows c rs).flagRows = t.flagRows := rfl

theorem setColRows_dataManagers (t : MSTable) (c : String)
    (rs : List (List Complex32)) :
    (t.setColRows c rs).dataManagers = t.dataManagers := rfl

theorem bindColumn_flagRows (t : MSTable) (n m : String) :
    (t.bindColumn n m).flagRows = t.flagRows := rfl

theorem bindColumn_dataManagers (t : MSTable) (n m : String) :
    (t.bindColumn n m).dataManagers = t.dataManagers := rfl

theorem reorderTable_flagRows (requant : Complex32 → Complex32)
    (t : MSTable) : (reorderTable requant t).flagRows = t.flagRows := rfl

theorem processColumnStep_flagRows (t : MSTable) (c : String) :
    (processColumnStep t c).2.1.flagRows = t.flagRows := by
  simp only [processColumnStep]
  split
  · rfl
  · split <;> rfl

theorem preprocessPass_flagRows (cns : List String) (t : MSTable) :
    (preprocessPass t cns).2.1.flagRows = t.flagRows := by
  induction cns generalizing t with
  | nil => rfl
  | cons c cs ih =>
    simp only [preprocessPass]
    split
    · exact processColumnStep_flagRows t c
    · rw [ih, processColumnStep_flagRows]

theorem processColumnStep_getCol_ne (t : MSTable) (c n : String)
    (h : n ≠ c) :
    MSTable.getCol (processColumnStep t c).2.1 n = t.getCol n := by
  simp only [processColumnStep]
  split
  · rfl
  · split
    · rfl
    · exact lookupCol_setRowsIn_ne t.cols c n _ h

theorem preprocessPass_getCol_ws (cns : List String) (t : MSTable) :
    MSTable.getCol (preprocessPass t cns).2.1 "WEIGHT_SPECTRUM" =
      t.getCol "WEIGHT_SPECTRUM" := by
  induction cns generalizing t with
  | nil => rfl
  | cons c cs ih =>
    by_cases hc : c = "WEIGHT_SPECTRUM"
    · subst hc
      simp only [preprocessPass, processColumnStep, if_pos rfl]
      exact ih t
    · simp only [preprocessPass]
      split
      · exact processColumnStep_getCol_ne t c _ (fun he => hc he.symm)
      · rw [ih, processColumnStep_getCol_ne t c _ (fun he => hc he.symm)]

theorem preprocessPass_err_none (c : String) (cs : List String)
    (t : MSTable) (h : (preprocessPass t (c :: cs)).2.2 = none) :
    (processColumnStep t c).2.2 = none ∧
      (preprocessPass (processColumnStep t c).2.1 cs).2.2 = none := by
  simp only [preprocessPass] at h
  constructor
  · by_contra hne
    rcases Option.ne_none_iff_exists.mp hne with ⟨e, he⟩
    rw [← he] at h
    simp [← he] at h
  · split at h
    · simp at h
    · exact h

theorem processColumnStep_ws (t : MSTable) :
    processColumnStep t "WEIGHT_SPECTRUM" = ([], t, none) := by
  simp [processColumnStep]

theorem processColumnStep_not_ws (t : MSTable) (c : String)
    (hc : c ≠ "WEIGHT_SPECTRUM")
    (hok : (processColumnStep t c).2.2 = none) :
    ∃ col, t.getCol c = some col ∧
      (processColumnStep t c).2.1 =
        t.setColRows c (sentinelRows col.rows t.flagRows) := by
  simp only [processColumnStep, if_neg hc] at hok ⊢
  cases hcol : t.getCol c with
  | none => simp [hcol] at hok
  | some col => exact ⟨col, rfl, by simp [hcol, processRows_fst]⟩

theorem preprocessPass_getCol (cns : List String) (t : MSTable)
    (name : String) (hok : (preprocessPass t cns).2.2 = none) :
    MSTable.getCol (preprocessPass t cns).2.1 name =
      if name ∈ cns ∧ name ≠ "WEIGHT_SPECTRUM"
      then (t.getCol name).map
        (fun col => { col with rows := sentinelRows col.rows t.flagRows })
      else t.getCol name := by
  induction cns generalizing t with
  | nil =>
    by_cases h : name ≠ "WEIGHT_SPECTRUM" <;> simp [preprocessPass, h]
  | cons c cs ih =>
    obtain ⟨hstep, hrest⟩ := preprocessPass_err_none c cs t hok
    have hpass1 : (preprocessPass t (c :: cs)).2.1 =
        (preprocessPass (processColumnStep t c).2.1 cs).2.1 := by
      simp only [preprocessPass]
      split
      · rename_i e he
        rw [he] at hstep
        simp at hstep
      · rfl
    rw [hpass1]
    by_cases hws : c = "WEIGHT_SPECTRUM"
    · subst hws
      have hid : processColumnStep t "WEIGHT_SPECTRUM" = ([], t, none) :=
        processColumnStep_ws t
      rw [hid] at hrest ⊢
      rw [ih t hrest]
      by_cases h1 : name = "WEIGHT_SPECTRUM"
      · simp [h1]
      · by_cases h2 : name ∈ cs <;> simp [h1, h2]
    · obtain ⟨col, hcol, ht2⟩ := processColumnStep_not_ws t c hws hstep
      rw [ht2] at hrest ⊢
      rw [ih _ hrest]
      by_cases hn : name = c
      · subst hn
        have hget : MSTable.getCol
            (t.setColRows name (sentinelRows col.rows t.flagRows)) name =
            some { col with rows := sentinelRows col.rows t.flagRows } :=
          lookupCol_setRowsIn_eq t.cols name _ col hcol
        by_cases h2 : name ∈ cs
        · simp [h2, hws, hget, setColRows_flagRows, hcol, sentinelRows_idem]
        · simp [h2, hws, hget, hcol]
      · have hget : MSTable.getCol
            (t.setColRows c (sentinelRows col.rows t.flagRows)) name =
            t.getCol name :=
          lookupCol_setRowsIn_ne t.cols c name _ hn
        by_cases h1 : name = "WEIGHT_SPECTRUM"
        · rw [h1] at hget
          simp [h1, hget, setColRows_flagRows]
        · by_cases h2 : name ∈ cs <;>
            simp [h1, h2, hn, hget, setColRows_flagRows]

theorem processColumnStep_events (t : MSTable) (c : String) :
    ∀ e ∈ (processColumnStep t c).1,
      c ≠ "WEIGHT_SPECTRUM" ∧ ∃ j, e = Event.putRow c j := by
  by_cases hws : c = "WEIGHT_SPECTRUM"
  · simp [processColumnStep, hws]
  · cases hcol : t.getCol c with
    | none => simp [processColumnStep, hws, hcol]
    | some col =>
      intro e he
      simp only [processColumnStep, if_neg hws, hcol] at he
      exact ⟨hws, processRows_events_shape c col.rows t.flagRows 0 e he⟩

theorem preprocessPass_events (cns : List String) (t : MSTable) :
    ∀ e ∈ (preprocessPass t cns).1,
      ∃ c j, c ∈ cns ∧ c ≠ "WEIGHT_SPECTRUM" ∧ e = Event.putRow c j := by
  induction cns generalizing t with
  | nil => simp [preprocessPass]
  | cons c cs ih =>
    intro e he
    simp only [preprocessPass] at he
    cases hs : (processColumnStep t c).2.2 with
    | some err =>
      simp [hs] at he
      obtain ⟨hws, j, hj⟩ := processColumnStep_events t c e he
      exact ⟨c, j, by simp, hws, hj⟩
    | none =>
      simp [hs] at he
      rcases he with h1 | h2
      · obtain ⟨hws, j, hj⟩ := processColumnStep_events t c e h1
        exact ⟨c, j, by simp, hws, hj⟩
      · obtain ⟨c2, j, hc2, hws, hj⟩ := ih _ e h2
        exact ⟨c2, j, by simp [hc2], hws, hj⟩

theorem preprocessPass_events_of_no_flags (cns : List String) (t : MSTable)
    (h : ∀ row ∈ t.flagRows, ∀ b ∈ row, b = false) :
    (preprocessPass t cns).1 = [] := by
  induction cns generalizing t with
  | nil => rfl
  | cons c cs ih =>
    have hstep : (processColumnStep t c).1 = [] := by
      by_cases hws : c = "WEIGHT_SPECTRUM"
      · simp [processColumnStep, hws]
      · cases hcol : t.getCol c with
        | none => simp [processColumnStep, hws, hcol]
        | some col =>
          simp [processColumnStep, hws, hcol,
            processRows_events_nil c col.rows t.flagRows 0 h]
    have hflags := processColumnStep_flagRows t c
    simp only [preprocessPass]
    split
    · exact hstep
    · rw [hstep]
      simp [ih _ (by rw [hflags]; exact h)]

/-- C1: for every row of every requested non-weight column, the
preprocessing pass turns each cell whose parallel flag is true into the
quiet-NaN sentinel in both components, and leaves each cell whose flag is
false exactly unchanged. -/
theorem flagged_cells_become_nan (t : MSTable) (cns : List String)
    (name : String) (col col2 : MSColumn)
    (h1 : name ∈ cns) (h2 : name ≠ "WEIGHT_SPECTRUM")
    (hok : (preprocessPass t cns).2.2 = none)
    (hcol : t.getCol name = some col)
    (hcol2 : MSTable.getCol (preprocessPass t cns).2.1 name = some col2)
    (r i : Nat) (hr : r < col.rows.length) (hf : r < t.flagRows.length)
    (hi : i < (col.rows.get ⟨r, hr⟩).length)
    (hif : i < (t.flagRows.get ⟨r, hf⟩).length) :
    ∃ (hr2 : r < col2.rows.length)
      (hi2 : i < (col2.rows.get ⟨r, hr2⟩).length),
      (col2.rows.get ⟨r, hr2⟩).get ⟨i, hi2⟩ =
        if (t.flagRows.get ⟨r, hf⟩).get ⟨i, hif⟩ then nanComplex
        else (col.rows.get ⟨r, hr⟩).get ⟨i, hi⟩ := by
  have hchar := preprocessPass_getCol cns t name hok
  rw [if_pos ⟨h1, h2⟩, hcol, hcol2] at hchar
  have hcv : col2 = { col with rows := sentinelRows col.rows t.flagRows } := by
    simpa using hchar
  subst hcv
  obtain ⟨hR, hRv⟩ := sentinelRows_getElem col.rows t.flagRows r hr hf
  obtain ⟨hC, hCv⟩ :=
    sentinelCells_getElem (col.rows.get ⟨r, hr⟩) (t.flagRows.get ⟨r, hf⟩)
      i hi hif
  refine ⟨hR, ?_⟩
  rw [hRv]
  exact ⟨hC, hCv⟩

/-- C7: during preprocessing a row is written back only when at least one
of its cells was changed (its flag vector is true at a position inside the
row), and for a table in which no flag is set the pass performs zero
writes. -/
theorem row_writeback_only_when_changed :
    (∀ (name : String) (rows : List (List Complex32))
        (flags : List (List Bool)) (i0 j : Nat),
        Event.putRow name j ∈ (processRows name rows flags i0).2 →
        ∃ r, j = i0 + r ∧
          ∃ (hr : r < rows.length) (hf : r < flags.length) (k : Nat)
            (_ : k < (rows.get ⟨r, hr⟩).length)
            (hk2 : k < (flags.get ⟨r, hf⟩).length),
            (flags.get ⟨r, hf⟩).get ⟨k, hk2⟩ = true) ∧
    (∀ (t : MSTable) (cns : List String),
        (∀ row ∈ t.flagRows, ∀ b ∈ row, b = false) →
        (preprocessPass t cns).1 = []) := by
  constructor
  · intro name rows flags i0 j h
    obtain ⟨r, hj, hr, hf, hv⟩ := processRows_putRow name rows flags i0 j h
    obtain ⟨k, hk1, hk2, hkv⟩ :=
      processCells_snd_true_exists (rows.get ⟨r, hr⟩) (flags.get ⟨r, hf⟩) hv
    exact ⟨r, hj, hr, hf, k, hk1, hk2, hkv⟩
  · exact fun t cns h => preprocessPass_events_of_no_flags cns t h

/-- C8: the preprocessing pass is applied to every requested column except
the pure-weight column WEIGHT_SPECTRUM, which is skipped entirely: its
data is unchanged and no write-back event names it, while every other
requested column present in the table has its rows rewritten by the
flag-to-sentinel cell map. -/
theorem weight_spectrum_skipped (t : MSTable) (cns : List String) :
    MSTable.getCol (preprocessPass t cns).2.1 "WEIGHT_SPECTRUM" =
      t.getCol "WEIGHT_SPECTRUM" ∧
    (∀ j, Event.putRow "WEIGHT_SPECTRUM" j ∉ (preprocessPass t cns).1) ∧
    (∀ name ∈ cns, name ≠ "WEIGHT_SPECTRUM" →
      (preprocessPass t cns).2.2 = none →
      ∀ col, t.getCol name = some col →
        MSTable.getCol (preprocessPass t cns).2.1 name =
          some { col with rows := sentinelRows col.rows t.flagRows }) := by
  refine ⟨preprocessPass_getCol_ws cns t, ?_, ?_⟩
  · intro j hj
    obtain ⟨c, j2, _, hws, hj2⟩ := preprocessPass_events cns t _ hj
    cases hj2
    exact hws rfl
  · intro name hmem hws hok col hcol
    have hchar := preprocessPass_getCol cns t name hok
    rw [if_pos ⟨hmem, hws⟩, hcol] at hchar
    simpa using hchar

theorem flagged_cells_become_nan_witness :
    (("DATA" : String) ∈ ["DATA"] ∧
      (preprocessPass exTable ["DATA"]).2.2 = none ∧
      exTable.getCol "DATA" = some exDataCol ∧
      MSTable.getCol (preprocessPass exTable ["DATA"]).2.1 "DATA" =
        some exDataColPost) ∧
    (∃ (hr2 : 0 < exDataColPost.rows.length)
      (hi2 : 0 < (exDataColPost.rows.get ⟨0, hr2⟩).length),
      (exDataColPost.rows.get ⟨0, hr2⟩).get ⟨0, hi2⟩ =
        if (exTable.flagRows.get ⟨0, by decide⟩).get ⟨0, by decide⟩
        then nanComplex
        else (exDataCol.rows.get ⟨0, by decide⟩).get ⟨0, by decide⟩) :=
  ⟨⟨by decide, by decide, by decide, by decide⟩,
   flagged_cells_become_nan exTable ["DATA"] "DATA" exDataCol exDataColPost
     (by decide) (by decide) (by decide) (by decide) (by decide)
     0 0 (by decide) (by decide) (by decide) (by decide)⟩

theorem row_writeback_only_when_changed_witness :
    (Event.putRow "DATA" 0 ∈
        (processRows "DATA" exDataCol.rows exTable.flagRows 0).2 ∧
      ∃ r, 0 = 0 + r ∧
        ∃ (hr : r < exDataCol.rows.length)
          (hf : r < exTable.flagRows.length) (k : Nat)
          (_ : k < (exDataCol.rows.get ⟨r, hr⟩).length)
          (hk2 : k < (exTable.flagRows.get ⟨r, hf⟩).length),
          (exTable.flagRows.get ⟨r, hf⟩).get ⟨k, hk2⟩ = true) ∧
    ((∀ row ∈ exTableNoFlags.flagRows, ∀ b ∈ row, b = false) ∧
      (preprocessPass exTableNoFlags ["DATA"]).1 = []) :=
  ⟨⟨by decide,
    row_writeback_only_when_changed.1 "DATA" exDataCol.rows
      exTable.flagRows 0 0 (by decide)⟩,
   ⟨by decide,
    row_writeback_only_when_changed.2 exTableNoFlags ["DATA"] (by decide)⟩⟩

theorem weight_spectrum_skipped_witness :
    MSTable.getCol
        (preprocessPass exTable ["DATA", "WEIGHT_SPECTRUM"]).2.1
        "WEIGHT_SPECTRUM" =
      exTable.getCol "WEIGHT_SPECTRUM" ∧
    MSTable.getCol (preprocessPass exTable ["DATA", "WEIGHT_SPECTRUM"]).2.1
        "DATA" =
      some { exDataCol with
              rows := sentinelRows exDataCol.rows exTable.flagRows } :=
  ⟨(weight_spectrum_skipped exTable ["DATA", "WEIGHT_SPECTRUM"]).1,
   (weight_spectrum_skipped exTable ["DATA", "WEIGHT_SPECTRUM"]).2.2 "DATA"
     (by decide) (by decide) (by decide) exDataCol (by decide)⟩

theorem prepareLoop_all_false (cns : List String) (t : MSTable) (sh : Nat)
    (h : ∀ c ∈ cns, ∃ col, t.getCol c = some col ∧
      col.dataManager = "DyscoStMan") :
    (prepareLoop t cns sh false).2 = some (false, sh) ∧
    ∀ e ∈ (prepareLoop t cns sh false).1,
      ∃ c, c ∈ cns ∧ e = Event.prepareCall c false := by
  induction cns generalizing sh with
  | nil => simp [prepareLoop]
  | cons c cs ih =>
    obtain ⟨col, hcol, hmgr⟩ := h c (by simp)
    have hprep : prepareReplacingColumn t c sh = some (false, sh) := by
      simp [prepareReplacingColumn, hcol, hmgr]
    obtain ⟨ihv, ihe⟩ := ih sh (fun c2 hc2 => h c2 (by simp [hc2]))
    constructor
    · simp only [prepareLoop, hprep]
      simpa using ihv
    · intro e he
      simp only [prepareLoop, hprep] at he
      simp at he
      rcases he with rfl | h2
      · exact ⟨c, by simp, rfl⟩
      · obtain ⟨c2, hc2, hj⟩ := ihe e h2
        exact ⟨c2, by simp [hc2], hj⟩

/-- C2: when every PrepareReplacingColumn call reports not-replaced, the
migration phase performs zero manager creations, zero column creations,
zero data moves and no reorder: its trace holds only not-replaced prepare
calls and the table after the preprocessing pass is returned unchanged. -/
theorem rerun_migration_is_noop (requant : Complex32 → Complex32)
    (o : CmdOptions) (cns : List String) (t1 : MSTable)
    (h : ∀ c ∈ cns, ∃ col, t1.getCol c = some col ∧
      col.dataManager = "DyscoStMan") :
    (migrationPhase requant o cns t1).2.1 = t1 ∧
    (migrationPhase requant o cns t1).2.2 = none ∧
    ∀ e ∈ (migrationPhase requant o cns t1).1,
      e.isManagerCreation = false ∧ e.isColumnAdd = false ∧
      e.isDataMove = false ∧ e.isReorder = false := by
  obtain ⟨hpl, hev⟩ := prepareLoop_all_false cns t1 0 h
  refine ⟨?_, ?_, ?_⟩
  · simp [migrationPhase, hpl]
  · simp [migrationPhase, hpl]
  · intro e he
    simp [migrationPhase, hpl] at he
    obtain ⟨c, _, rfl⟩ := hev e he
    exact ⟨rfl, rfl, rfl, rfl⟩

theorem rerun_migration_is_noop_witness :
    (∀ c ∈ ["DATA"], ∃ col, exTableMig.getCol c = some col ∧
      col.dataManager = "DyscoStMan") ∧
    (migrationPhase id initOptions ["DATA"] exTableMig).2.1 = exTableMig ∧
    (migrationPhase id initOptions ["DATA"] exTableMig).2.2 = none ∧
    ∀ e ∈ (migrationPhase id initOptions ["DATA"] exTableMig).1,
      e.isManagerCreation = false ∧ e.isColumnAdd = false ∧
      e.isDataMove = false ∧ e.isReorder = false :=
  ⟨by decide,
   rerun_migration_is_noop id initOptions ["DATA"] exTableMig
     (by decide)⟩

/-- C4: when a manager of the target type name already exists on the
table, attaching a further column applies none of the configuration: the
manager registry is unchanged, the call succeeds, and the trace holds no
manager construction and no distribution or normalization setter. -/
theorem existing_manager_config_untouched (t : MSTable) (name : String)
    (shape bc bw : Nat) (n : DyscoNormalization) (d : DyscoDistribution)
    (nu tr : Rat) (h : t.hasDataManager "DyscoStMan" = true) :
    (createDyscoStManColumn t name shape bc bw n d nu tr).2.1.dataManagers =
      t.dataManagers ∧
    (createDyscoStManColumn t name shape bc bw n d nu tr).2.2 = none ∧
    ∀ e ∈ (createDyscoStManColumn t name shape bc bw n d nu tr).1,
      e.isManagerCreation = false ∧ e.isDistributionSetter = false ∧
      e.isNormalizationSetter = false := by
  refine ⟨?_, ?_, ?_⟩
  · simp only [createDyscoStManColumn, if_pos h]
    exact bindColumn_dataManagers t name "DyscoStMan"
  · simp only [createDyscoStManColumn, if_pos h]
  · intro e he
    simp only [createDyscoStManColumn, if_pos h] at he
    simp at he
    rcases he with rfl | rfl <;> exact ⟨rfl, rfl, rfl⟩

theorem existing_manager_config_untouched_witness :
    exTableMig.hasDataManager "DyscoStMan" = true ∧
    (createDyscoStManColumn exTableMig "MODEL_DATA" 2 3 5
        DyscoNormalization.RowNormalization
        DyscoDistribution.UniformDistribution 1 1).2.1.dataManagers =
      exTableMig.dataManagers ∧
    (createDyscoStManColumn exTableMig "MODEL_DATA" 2 3 5
        DyscoNormalization.RowNormalization
        DyscoDistribution.UniformDistribution 1 1).2.2 = none ∧
    ∀ e ∈ (createDyscoStManColumn exTableMig "MODEL_DATA" 2 3 5
        DyscoNormalization.RowNormalization
        DyscoDistribution.UniformDistribution 1 1).1,
      e.isManagerCreation = false ∧ e.isDistributionSetter = false ∧
      e.isNormalizationSetter = false :=
  ⟨by decide,
   existing_manager_config_untouched exTableMig "MODEL_DATA" 2 3 5
     DyscoNormalization.RowNormalization
     DyscoDistribution.UniformDistribution 1 1 (by decide)⟩

theorem createDyscoStManColumn_flagRows (t : MSTable) (name : String)
    (shape bc bw : Nat) (n : DyscoNormalization) (d : DyscoDistribution)
    (nu tr : Rat) :
    (createDyscoStManColumn t name shape bc bw n d nu tr).2.1.flagRows =
      t.flagRows := by
  unfold createDyscoStManColumn
  split
  · rfl
  · split
    · rfl
    · split
      · rfl
      · rfl
      · dsimp only
        simp only [DyscoStMan.SetStudentsTDistribution]
        split <;> rfl
      · dsimp only
        simp only [DyscoStMan.SetTruncatedGaussianDistribution]
        split <;> rfl

theorem createLoop_flagRows (cns : List String) (t : MSTable)
    (o : CmdOptions) (shape : Nat) :
    (createLoop t o shape cns).2.1.flagRows = t.flagRows := by
  induction cns generalizing t with
  | nil => rfl
  | cons c cs ih =>
    simp only [createLoop]
    split
    · exact createDyscoStManColumn_flagRows t c shape o.bitsPerFloat
        o.bitsPerWeight o.normalization o.distribution 1
        o.distributionTruncation
    · rw [ih, createDyscoStManColumn_flagRows]

theorem moveLoop_table (cns : List String) (t : MSTable) :
    (moveLoop t cns).2 = t := by
  induction cns with
  | nil => rfl
  | cons c cs ih => simpa [moveLoop, moveColumnData] using ih

theorem migrationPhase_flagRows (requant : Complex32 → Complex32)
    (o : CmdOptions) (cns : List String) (t1 : MSTable) :
    (migrationPhase requant o cns t1).2.1.flagRows = t1.flagRows := by
  simp only [migrationPhase]
  split
  · rfl
  · split
    · split
      · exact createLoop_flagRows cns t1 o _
      · split
        · rw [reorderTable_flagRows, moveLoop_table, createLoop_flagRows]
        · rw [moveLoop_table, createLoop_flagRows]
    · rfl

/-- C9: the flag column is a read-only input to the whole run: whatever
the arguments, the table in which the run ends (also at an error) carries
the flag rows of the input table unchanged; no step of preprocessing,
migration or compaction writes to it. -/
theorem flags_never_mutated (requant : Complex32 → Complex32)
    (argv1 : List String) (t : MSTable) :
    ((dscompressRun requant argv1 t).table).flagRows = t.flagRows := by
  simp only [dscompressRun]
  split
  · rfl
  · split
    · rfl
    · split
      · rfl
      · split
        · exact preprocessPass_flagRows _ t
        · rw [migrationPhase_flagRows, preprocessPass_flagRows]

theorem prepareLoop_events (cns : List String) (t : MSTable) :
    ∀ sh a, ∀ e ∈ (prepareLoop t cns sh a).1,
      ∃ c b, e = Event.prepareCall c b := by
  induction cns with
  | nil => simp [prepareLoop]
  | cons c cs ih =>
    intro sh a e he
    simp only [prepareLoop] at he
    cases hp : prepareReplacingColumn t c sh with
    | none => rw [hp] at he; simp at he
    | some rs =>
      rw [hp] at he
      simp at he
      rcases he with rfl | h2
      · exact ⟨c, rs.1, rfl⟩
      · exact ih rs.2 (rs.1 || a) e h2

theorem createDyscoStManColumn_events (t : MSTable) (name : String)
    (shape bc bw : Nat) (n : DyscoNormalization) (d : DyscoDistribution)
    (nu tr : Rat) :
    ∀ e ∈ (createDyscoStManColumn t name shape bc bw n d nu tr).1,
      e ∈ [Event.queryManager, Event.managerCreated bc bw,
           Event.setGaussianDistributionEv, Event.setUniformDistributionEv,
           Event.setStudentsTDistributionEv nu,
           Event.setTruncatedGaussianDistributionEv tr,
           Event.setNormalizationEv n,
           Event.addColumnEv name true, Event.addColumnEv name false] := by
  intro e he
  unfold createDyscoStManColumn at he
  split at he
  · simp at he ⊢
    tauto
  · split at he
    · simp at he ⊢
      tauto
    · split at he
      · simp at he ⊢
        tauto
      · simp at he ⊢
        tauto
      · dsimp only at he
        simp only [DyscoStMan.SetStudentsTDistribution] at he
        split at he <;> (simp at he ⊢; tauto)
      · dsimp only at he
        simp only [DyscoStMan.SetTruncatedGaussianDistribution] at he
        split at he <;> (simp at he ⊢; tauto)

theorem createLoop_events (cns : List String) (t : MSTable)
    (o : CmdOptions) (shape : Nat) :
    ∀ e ∈ (createLoop t o shape cns).1,
      ∃ c, e ∈ [Event.queryManager,
        Event.managerCreated o.bitsPerFloat o.bitsPerWeight,
        Event.setGaussianDistributionEv, Event.setUniformDistributionEv,
        Event.setStudentsTDistributionEv 1,
        Event.setTruncatedGaussianDistributionEv o.distributionTruncation,
        Event.setNormalizationEv o.normalization,
        Event.addColumnEv c true, Event.addColumnEv c false] := by
  induction cns generalizing t with
  | nil => simp [createLoop]
  | cons c cs ih =>
    intro e he
    simp only [createLoop] at he
    split at he
    · exact ⟨c, createDyscoStManColumn_events t c shape o.bitsPerFloat
        o.bitsPerWeight o.normalization o.distribution 1
        o.distributionTruncation e he⟩
    · rw [List.mem_append] at he
      rcases he with h1 | h2
      · exact ⟨c, createDyscoStManColumn_events t c shape o.bitsPerFloat
          o.bitsPerWeight o.normalization o.distribution 1
          o.distributionTruncation e h1⟩
      · exact ih _ e h2

theorem moveLoop_events (cns : List String) (t : MSTable) :
    ∀ e ∈ (moveLoop t cns).1, ∃ c, e = Event.moveColumnDataEv c := by
  induction cns generalizing t with
  | nil => simp [moveLoop]
  | cons c cs ih =>
    intro e he
    simp only [moveLoop, moveColumnData] at he
    simp at he
    rcases he with rfl | h2
    · exact ⟨c, rfl⟩
    · exact ih _ e h2

theorem migrationPhase_events (requant : Complex32 → Complex32)
    (o : CmdOptions) (cns : List String) (t1 : MSTable) :
    ∀ e ∈ (migrationPhase requant o cns t1).1,
      (∃ c b, e = Event.prepareCall c b) ∨
      (∃ c, e ∈ [Event.queryManager,
        Event.managerCreated o.bitsPerFloat o.bitsPerWeight,
        Event.setGaussianDistributionEv, Event.setUniformDistributionEv,
        Event.setStudentsTDistributionEv 1,
        Event.setTruncatedGaussianDistributionEv o.distributionTruncation,
        Event.setNormalizationEv o.normalization,
        Event.addColumnEv c true, Event.addColumnEv c false]) ∨
      (∃ c, e = Event.moveColumnDataEv c) ∨ e = Event.reorderEv := by
  intro e he
  simp only [migrationPhase] at he
  split at he
  · exact Or.inl (prepareLoop_events cns t1 0 false e he)
  · split at he
    · split at he
      · rw [List.mem_append] at he
        rcases he with h1 | h2
        · exact Or.inl (prepareLoop_events cns t1 0 false e h1)
        · exact Or.inr (Or.inl (createLoop_events cns t1 o _ e h2))
      · split at he
        · simp only [List.append_assoc, List.mem_append] at he
          rcases he with h1 | h2 | h3 | h4
          · exact Or.inl (prepareLoop_events cns t1 0 false e h1)
          · exact Or.inr (Or.inl (createLoop_events cns t1 o _ e h2))
          · exact Or.inr (Or.inr (Or.inl (moveLoop_events cns _ e h3)))
          · simp at h4
            exact Or.inr (Or.inr (Or.inr h4))
        · simp only [List.append_assoc, List.mem_append] at he
          rcases he with h1 | h2 | h3
          · exact Or.inl (prepareLoop_events cns t1 0 false e h1)
          · exact Or.inr (Or.inl (createLoop_events cns t1 o _ e h2))
          · exact Or.inr (Or.inr (Or.inl (moveLoop_events cns _ e h3)))
    · exact Or.inl (prepareLoop_events cns t1 0 false e he)

theorem migrationPhase_not_prewrite (requant : Complex32 → Complex32)
    (o : CmdOptions) (cns : List String) (t1 : MSTable) :
    ∀ e ∈ (migrationPhase requant o cns t1).1, e.isPreWrite = false := by
  intro e he
  rcases migrationPhase_events requant o cns t1 e he with
    ⟨c, b, rfl⟩ | ⟨c, hc⟩ | ⟨c, rfl⟩ | rfl
  · rfl
  · simp at hc
    rcases hc with rfl | rfl | rfl | rfl | rfl | rfl | rfl | rfl | rfl <;> rfl
  · rfl
  · rfl

theorem dscompressRun_trace_eq (requant : Complex32 → Complex32)
    (argv1 : List String) (t : MSTable) :
    (dscompressRun requant argv1 t).trace = [] ∨
    ∃ o v rest2, parseArgs argv1 initOptions = Except.ok (o, v :: rest2) ∧
      ((dscompressRun requant argv1 t).trace =
          Event.openTable :: (preprocessPass t (effectiveColumns o)).1 ∨
        (dscompressRun requant argv1 t).trace =
          Event.openTable :: ((preprocessPass t (effectiveColumns o)).1 ++
            (migrationPhase requant o (effectiveColumns o)
              (preprocessPass t (effectiveColumns o)).2.1).1)) := by
  simp only [dscompressRun]
  split
  · exact Or.inl rfl
  · split
    · exact Or.inl rfl
    · rename_i o rest heq
      rcases rest with _ | ⟨v, rest2⟩
      · exact Or.inl rfl
      · dsimp only
        split
        · exact Or.inr ⟨o, v, rest2, heq, Or.inl rfl⟩
        · exact Or.inr ⟨o, v, rest2, heq, Or.inr rfl⟩

/-- C5: the flag-to-sentinel preprocessing events all precede every
migration event: the run trace splits into a prefix without any migration
step and a suffix without any preprocessing write, so the pass over every
requested column completes before manager queries, manager or column
creation, data moves or compaction begin. -/
theorem preprocessing_completes_before_migration
    (requant : Complex32 → Complex32) (argv1 : List String) (t : MSTable) :
    ∃ pre post, (dscompressRun requant argv1 t).trace = pre ++ post ∧
      (∀ e ∈ pre, e.isMigStep = false) ∧
      (∀ e ∈ post, e.isPreWrite = false) := by
  have hpre : ∀ (cns : List String) (t2 : MSTable),
      ∀ e ∈ Event.openTable :: (preprocessPass t2 cns).1,
        e.isMigStep = false := by
    intro cns t2 e he
    rcases List.mem_cons.mp he with rfl | h2
    · rfl
    · obtain ⟨c, j, _, _, rfl⟩ := preprocessPass_events cns t2 e h2
      rfl
  rcases dscompressRun_trace_eq requant argv1 t with h | ⟨o, v, rest2, hp, h | h⟩
  · exact ⟨[], [], by simp [h], by simp, by simp⟩
  · refine ⟨Event.openTable :: (preprocessPass t (effectiveColumns o)).1, [],
      by simp [h], hpre _ t, by simp⟩
  · exact ⟨Event.openTable :: (preprocessPass t (effectiveColumns o)).1,
      (migrationPhase requant o (effectiveColumns o)
        (preprocessPass t (effectiveColumns o)).2.1).1,
      by simpa using h, hpre _ t,
      migrationPhase_not_prewrite requant o (effectiveColumns o) _⟩

theorem migrationPhase_studentst (requant : Complex32 → Complex32)
    (o : CmdOptions) (cns : List String) (t1 : MSTable) (nu : Rat)
    (h : Event.setStudentsTDistributionEv nu ∈
      (migrationPhase requant o cns t1).1) : nu = 1 := by
  rcases migrationPhase_events requant o cns t1 _ h with
    ⟨c, b, he⟩ | ⟨c, hc⟩ | ⟨c, he⟩ | he
  · simp at he
  · simpa using hc
  · simp at he
  · simp at he

/-- C10: whenever the Students-T distribution setter runs, the
degrees-of-freedom value it receives is the constant 1: the -studentt
option takes no parameter and both call sites of createDyscoStManColumn
pass the literal 1.0, so no command line can configure any other value. -/
theorem studentst_dof_always_one (requant : Complex32 → Complex32)
    (argv1 : List String) (t : MSTable) (nu : Rat)
    (h : Event.setStudentsTDistributionEv nu ∈
      (dscompressRun requant argv1 t).trace) : nu = 1 := by
  rcases dscompressRun_trace_eq requant argv1 t with
    ht | ⟨o, v, rest2, hp, hne | hne⟩
  · rw [ht] at h
    simp at h
  · rw [hne] at h
    rcases List.mem_cons.mp h with he | h2
    · simp at he
    · obtain ⟨c, j, _, _, he⟩ := preprocessPass_events _ t _ h2
      simp at he
  · rw [hne] at h
    rcases List.mem_cons.mp h with he | h2
    · simp at he
    · rcases List.mem_append.mp h2 with h3 | h4
      · obtain ⟨c, j, _, _, he⟩ := preprocessPass_events _ t _ h3
        simp at he
      · exact migrationPhase_studentst requant o _ _ nu h4

theorem studentst_dof_always_one_witness :
    Event.setStudentsTDistributionEv 1 ∈
      (dscompressRun id ["-studentt", "ms"] exTable).trace ∧ (1 : Rat) = 1 :=
  ⟨by decide,
   studentst_dof_always_one id ["-studentt", "ms"] exTable 1 (by decide)⟩

theorem parseArgs_reorder_aux : ∀ (n : Nat) (l : List String),
    l.length ≤ n → ∀ (o0 o : CmdOptions) (r : List String),
      parseArgs l o0 = Except.ok (o, r) → o.reorder = true →
      o0.reorder = true ∨ "-reorder" ∈ l := by
  intro n
  induction n with
  | zero =>
    intro l hl o0 o r h hr
    have hnil : l = [] := List.eq_nil_of_length_eq_zero (by omega)
    subst hnil
    simp [parseArgs] at h
    left
    rw [h.1]
    exact hr
  | succ n ih =>
    intro l hl o0 o r h hr
    cases l with
    | nil =>
      simp [parseArgs] at h
      left
      rw [h.1]
      exact hr
    | cons a rest =>
      cases rest with
      | nil =>
        have hstep : ∀ (o1 : CmdOptions), o1.reorder = o0.reorder →
            parseArgs [] o1 = Except.ok (o, r) →
            o0.reorder = true ∨ "-reorder" ∈ [a] := by
          intro o1 ho1 h1
          rcases ih [] (by simp) o1 o r h1 hr with hL | hR
          · left
            rw [← ho1]
            exact hL
          · simp at hR
        rw [parseArgs.eq_3] at h
        split at h
        · simp at h
          left
          rw [h.1]
          exact hr
        · rename_i c0 cs hd
          by_cases hc0 : c0 = '-'
          case neg =>
            rw [if_neg hc0] at h
            simp at h
            left
            rw [h.1]
            exact hr
          case pos =>
            subst hc0
            rw [if_pos rfl] at h
            dsimp only at h
            by_cases h1 : String.mk cs = "data-bit-rate"
            · rw [if_pos h1] at h
              simp at h
            · rw [if_neg h1] at h
              by_cases h2 : String.mk cs = "weight-bit-rate"
              · rw [if_pos h2] at h
                simp at h
              · rw [if_neg h2] at h
                by_cases h3 : String.mk cs = "reorder"
                · right
                  have hcs : cs = "reorder".data := congrArg String.data h3
                  have ha : a = "-reorder" := by
                    have hmk : a = String.mk a.data := rfl
                    rw [hmk, hd, hcs]
                  rw [ha]
                  exact List.mem_cons_self _ _
                · rw [if_neg h3] at h
                  by_cases h4 : String.mk cs = "gaussian"
                  · rw [if_pos h4] at h
                    refine hstep _ ?_ h
                    rfl
                  · rw [if_neg h4] at h
                    by_cases h5 : String.mk cs = "uniform"
                    · rw [if_pos h5] at h
                      refine hstep _ ?_ h
                      rfl
                    · rw [if_neg h5] at h
                      by_cases h6 : String.mk cs = "studentt"
                      · rw [if_pos h6] at h
                        refine hstep _ ?_ h
                        rfl
                      · rw [if_neg h6] at h
                        by_cases h7 : String.mk cs = "truncgaus"
                        · rw [if_pos h7] at h
                          simp at h
                        · rw [if_neg h7] at h
                          by_cases h8 : String.mk cs = "column"
                          · rw [if_pos h8] at h
                            simp at h
                          · rw [if_neg h8] at h
                            by_cases h9 : String.mk cs = "rfnormalization"
                            · rw [if_pos h9] at h
                              refine hstep _ ?_ h
                              rfl
                            · rw [if_neg h9] at h
                              by_cases h10 : String.mk cs = "afnormalization"
                              · rw [if_pos h10] at h
                                refine hstep _ ?_ h
                                rfl
                              · rw [if_neg h10] at h
                                by_cases h11 : String.mk cs = "rownormalization"
                                · rw [if_pos h11] at h
                                  refine hstep _ ?_ h
                                  rfl
                                · rw [if_neg h11] at h
                                  simp at h
      | cons v rest2 =>
        have hstep1 : ∀ (o1 : CmdOptions), o1.reorder = o0.reorder →
            parseArgs (v :: rest2) o1 = Except.ok (o, r) →
            o0.reorder = true ∨ "-reorder" ∈ a :: v :: rest2 := by
          intro o1 ho1 h1
          rcases ih (v :: rest2) (by simp at hl ⊢; omega) o1 o r h1 hr with hL | hR
          · left
            rw [← ho1]
            exact hL
          · right
            exact List.mem_cons_of_mem a hR
        have hstep2 : ∀ (o1 : CmdOptions), o1.reorder = o0.reorder →
            parseArgs rest2 o1 = Except.ok (o, r) →
            o0.reorder = true ∨ "-reorder" ∈ a :: v :: rest2 := by
          intro o1 ho1 h1
          rcases ih rest2 (by simp at hl ⊢; omega) o1 o r h1 hr with hL | hR
          · left
            rw [← ho1]
            exact hL
          · right
            exact List.mem_cons_of_mem a (List.mem_cons_of_mem v hR)
        rw [parseArgs.eq_2] at h
        split at h
        · simp at h
          left
          rw [h.1]
          exact hr
        · rename_i c0 cs hd
          by_cases hc0 : c0 = '-'
          case neg =>
            rw [if_neg hc0] at h
            simp at h
            left
            rw [h.1]
            exact hr
          case pos =>
            subst hc0
            rw [if_pos rfl] at h
            dsimp only at h
            by_cases h1 : String.mk cs = "data-bit-rate"
            · rw [if_pos h1] at h
              refine hstep2 _ ?_ h
              rfl
            · rw [if_neg h1] at h
              by_cases h2 : String.mk cs = "weight-bit-rate"
              · rw [if_pos h2] at h
                refine hstep2 _ ?_ h
                rfl
              · rw [if_neg h2] at h
                by_cases h3 : String.mk cs = "reorder"
                · right
                  have hcs : cs = "reorder".data := congrArg String.data h3
                  have ha : a = "-reorder" := by
                    have hmk : a = String.mk a.data := rfl
                    rw [hmk, hd, hcs]
                  rw [ha]
                  exact List.mem_cons_self _ _
                · rw [if_neg h3] at h
                  by_cases h4 : String.mk cs = "gaussian"
                  · rw [if_pos h4] at h
                    refine hstep1 _ ?_ h
                    rfl
                  · rw [if_neg h4] at h
                    by_cases h5 : String.mk cs = "uniform"
                    · rw [if_pos h5] at h
                      refine hstep1 _ ?_ h
                      rfl
                    · rw [if_neg h5] at h
                      by_cases h6 : String.mk cs = "studentt"
                      · rw [if_pos h6] at h
                        refine hstep1 _ ?_ h
                        rfl
                      · rw [if_neg h6] at h
                        by_cases h7 : String.mk cs = "truncgaus"
                        · rw [if_pos h7] at h
                          refine hstep2 _ ?_ h
                          rfl
                        · rw [if_neg h7] at h
                          by_cases h8 : String.mk cs = "column"
                          · rw [if_pos h8] at h
                            refine hstep2 _ ?_ h
                            rfl
                          · rw [if_neg h8] at h
                            by_cases h9 : String.mk cs = "rfnormalization"
                            · rw [if_pos h9] at h
                              refine hstep1 _ ?_ h
                              rfl
                            · rw [if_neg h9] at h
                              by_cases h10 : String.mk cs = "afnormalization"
                              · rw [if_pos h10] at h
                                refine hstep1 _ ?_ h
                                rfl
                              · rw [if_neg h10] at h
                                by_cases h11 : String.mk cs = "rownormalization"
                                · rw [if_pos h11] at h
                                  refine hstep1 _ ?_ h
                                  rfl
                                · rw [if_neg h11] at h
                                  simp at h

theorem parseArgs_reorder (l : List String) (o0 o : CmdOptions)
    (r : List String) (h : parseArgs l o0 = Except.ok (o, r))
    (hr : o.reorder = true) :
    o0.reorder = true ∨ "-reorder" ∈ l :=
  parseArgs_reorder_aux l.length l le_rfl o0 o r h hr

theorem prepareLoop_acc (cns : List String) (t : MSTable) :
    ∀ (sh : Nat) (a b : Bool) (sh2 : Nat),
      (prepareLoop t cns sh a).2 = some (b, sh2) → b = true →
      a = true ∨ ∃ c, Event.prepareCall c true ∈ (prepareLoop t cns sh a).1 := by
  induction cns with
  | nil =>
    intro sh a b sh2 h hb
    simp [prepareLoop] at h
    left
    rw [h.1, hb]
  | cons c cs ih =>
    intro sh a b sh2 h hb
    simp only [prepareLoop] at h ⊢
    cases hp : prepareReplacingColumn t c sh with
    | none =>
      rw [hp] at h
      simp at h
    | some rs =>
      rw [hp] at h
      obtain ⟨replaced, sh3⟩ := rs
      dsimp only at h ⊢
      rcases ih sh3 (replaced || a) b sh2 h hb with h1 | ⟨c2, hc2⟩
      · rcases (by simpa using h1 : replaced = true ∨ a = true) with hr | ha
        · right
          exact ⟨c, by simp [hr]⟩
        · left
          exact ha
      · right
        exact ⟨c2, by simp [hc2]⟩

theorem migrationPhase_reorder (requant : Complex32 → Complex32)
    (o : CmdOptions) (cns : List String) (t1 : MSTable)
    (h : Event.reorderEv ∈ (migrationPhase requant o cns t1).1) :
    o.reorder = true ∧
    ∃ c, Event.prepareCall c true ∈ (migrationPhase requant o cns t1).1 := by
  simp only [migrationPhase] at h ⊢
  split at h
  · obtain ⟨c, b, he⟩ := prepareLoop_events cns t1 0 false _ h
    simp at he
  · rename_i isR sh heq
    split at h
    · rename_i hisR
      split at h
      · rename_i err hcl
        rw [List.mem_append] at h
        rcases h with h1 | h2
        · obtain ⟨c, b, he⟩ := prepareLoop_events cns t1 0 false _ h1
          simp at he
        · obtain ⟨c, hc⟩ := createLoop_events cns t1 o sh _ h2
          simp at hc
      · rename_i hcl
        split at h
        · rename_i hreo
          rcases prepareLoop_acc cns t1 0 false isR sh heq hisR with
            h1 | ⟨c, hc⟩
          · exact absurd h1 (by simp)
          · refine ⟨hreo, c, ?_⟩
            rw [if_pos hisR, if_pos hreo]
            simp [hc]
        · rename_i hreo
          simp only [List.append_assoc, List.mem_append] at h
          rcases h with h1 | h2 | h3
          · obtain ⟨c, b, he⟩ := prepareLoop_events cns t1 0 false _ h1
            simp at he
          · obtain ⟨c, hc⟩ := createLoop_events cns t1 o sh _ h2
            simp at hc
          · obtain ⟨c, he⟩ := moveLoop_events cns _ _ h3
            simp at he
    · rename_i hisR
      obtain ⟨c, b, he⟩ := prepareLoop_events cns t1 0 false _ h
      simp at he

/-- C6: the table compactor runs only when the -reorder flag was given on
the command line (the parsed options carry reorder = true, which only the
argument -reorder can set, the default being false) and at least one
prepare call reported that its column was actually replaced; by default no
reorder event occurs. -/
theorem reorder_only_when_requested_and_replaced
    (requant : Complex32 → Complex32) (argv1 : List String) (t : MSTable)
    (h : Event.reorderEv ∈ (dscompressRun requant argv1 t).trace) :
    (∃ o v rest2, parseArgs argv1 initOptions = Except.ok (o, v :: rest2) ∧
      o.reorder = true ∧ "-reorder" ∈ argv1) ∧
    ∃ c, Event.prepareCall c true ∈ (dscompressRun requant argv1 t).trace := by
  rcases dscompressRun_trace_eq requant argv1 t with
    ht | ⟨o, v, rest2, hp, hne | hne⟩
  · rw [ht] at h
    simp at h
  · rw [hne] at h
    rcases List.mem_cons.mp h with he | h2
    · simp at he
    · obtain ⟨c, j, _, _, he⟩ := preprocessPass_events _ t _ h2
      simp at he
  · rw [hne] at h
    rcases List.mem_cons.mp h with he | h2
    · simp at he
    · rcases List.mem_append.mp h2 with h3 | h4
      · obtain ⟨c, j, _, _, he⟩ := preprocessPass_events _ t _ h3
        simp at he
      · obtain ⟨hreo, c, hc⟩ := migrationPhase_reorder requant o _ _ h4
        have hmem : "-reorder" ∈ argv1 := by
          rcases parseArgs_reorder argv1 initOptions o (v :: rest2) hp hreo
            with h0 | hm
          · simp [initOptions] at h0
          · exact hm
        refine ⟨⟨o, v, rest2, hp, hreo, hmem⟩, c, ?_⟩
        rw [hne]
        exact List.mem_cons_of_mem _ (List.mem_append_right _ hc)

theorem reorder_only_when_requested_and_replaced_witness :
    Event.reorderEv ∈ (dscompressRun id ["-reorder", "ms"] exTable).trace ∧
    ((∃ o v rest2,
        parseArgs ["-reorder", "ms"] initOptions = Except.ok (o, v :: rest2) ∧
        o.reorder = true ∧ "-reorder" ∈ ["-reorder", "ms"]) ∧
      ∃ c, Event.prepareCall c true ∈
        (dscompressRun id ["-reorder", "ms"] exTable).trace) :=
  ⟨by decide,
   reorder_only_when_requested_and_replaced id ["-reorder", "ms"] exTable
     (by decide)⟩

theorem createDyscoStManColumn_managerCreated (t : MSTable) (name : String)
    (shape bc bw : Nat) (n : DyscoNormalization) (d : DyscoDistribution)
    (nu tr : Rat) (a b : Nat)
    (h : Event.managerCreated a b ∈
      (createDyscoStManColumn t name shape bc bw n d nu tr).1) :
    bc ≠ 0 ∧ bw ≠ 0 := by
  unfold createDyscoStManColumn at h
  split at h
  · simp at h
  · split at h
    · simp at h
    · rename_i m0 hm
      unfold mkDyscoStMan at hm
      split at hm
      · simp at hm
      · rename_i hcond
        exact ⟨fun hc => hcond (Or.inl hc), fun hc => hcond (Or.inr hc)⟩

theorem createLoop_managerCreated (cns : List String) (t : MSTable)
    (o : CmdOptions) (shape a b : Nat)
    (h : Event.managerCreated a b ∈ (createLoop t o shape cns).1) :
    o.bitsPerFloat ≠ 0 ∧ o.bitsPerWeight ≠ 0 := by
  induction cns generalizing t with
  | nil => simp [createLoop] at h
  | cons c cs ih =>
    simp only [createLoop] at h
    split at h
    · exact createDyscoStManColumn_managerCreated t c shape o.bitsPerFloat
        o.bitsPerWeight o.normalization o.distribution 1
        o.distributionTruncation a b h
    · rw [List.mem_append] at h
      rcases h with h1 | h2
      · exact createDyscoStManColumn_managerCreated t c shape o.bitsPerFloat
          o.bitsPerWeight o.normalization o.distribution 1
          o.distributionTruncation a b h1
      · exact ih _ h2

theorem migrationPhase_managerCreated (requant : Complex32 → Complex32)
    (o : CmdOptions) (cns : List String) (t1 : MSTable) (a b : Nat)
    (h : Event.managerCreated a b ∈ (migrationPhase requant o cns t1).1) :
    o.bitsPerFloat ≠ 0 ∧ o.bitsPerWeight ≠ 0 := by
  simp only [migrationPhase] at h
  split at h
  · obtain ⟨c, b2, he⟩ := prepareLoop_events cns t1 0 false _ h
    simp at he
  · rename_i isR sh heq
    split at h
    · split at h
      · rw [List.mem_append] at h
        rcases h with h1 | h2
        · obtain ⟨c, b2, he⟩ := prepareLoop_events cns t1 0 false _ h1
          simp at he
        · exact createLoop_managerCreated cns t1 o sh a b h2
      · split at h
        · simp only [List.append_assoc, List.mem_append] at h
          rcases h with h1 | h2 | h3 | h4
          · obtain ⟨c, b2, he⟩ := prepareLoop_events cns t1 0 false _ h1
            simp at he
          · exact createLoop_managerCreated cns t1 o sh a b h2
          · obtain ⟨c, he⟩ := moveLoop_events cns _ _ h3
            simp at he
          · simp at h4
        · simp only [List.append_assoc, List.mem_append] at h
          rcases h with h1 | h2 | h3
          · obtain ⟨c, b2, he⟩ := prepareLoop_events cns t1 0 false _ h1
            simp at he
          · exact createLoop_managerCreated cns t1 o sh a b h2
          · obtain ⟨c, he⟩ := moveLoop_events cns _ _ h3
            simp at he
    · obtain ⟨c, b2, he⟩ := prepareLoop_events cns t1 0 false _ h
      simp at he

/-- C3 (amended): a data bit-width of 0 raises no configuration error
before the table is opened for write: whenever parsing succeeds the run
opens the table first (the first trace event is the open), the
preprocessing pass runs on the opened table, and the invalid bit-width
can only surface later, at storage-manager construction during column
creation, so no storage manager is ever constructed in such a run. -/
theorem zero_bitrate_not_checked_before_open
    (requant : Complex32 → Complex32) (argv1 : List String) (t : MSTable)
    (o : CmdOptions) (v : String) (rest2 : List String)
    (hp : parseArgs argv1 initOptions = Except.ok (o, v :: rest2))
    (h0 : o.bitsPerFloat = 0) :
    (dscompressRun requant argv1 t).trace.head? = some Event.openTable ∧
    ∀ e ∈ (dscompressRun requant argv1 t).trace,
      e.isManagerCreation = false := by
  have hne : argv1.isEmpty = false := by
    cases argv1 with
    | nil => simp [parseArgs] at hp
    | cons a l => rfl
  constructor
  · simp only [dscompressRun]
    rw [hne]
    simp only [Bool.false_eq_true, if_false]
    rw [hp]
    dsimp only
    split <;> rfl
  · intro e he
    rcases dscompressRun_trace_eq requant argv1 t with
      ht | ⟨o2, v2, rest22, hp2, hne2 | hne2⟩
    · rw [ht] at he
      simp at he
    · rw [hne2] at he
      rcases List.mem_cons.mp he with rfl | h2
      · rfl
      · obtain ⟨c, j, _, _, rfl⟩ := preprocessPass_events _ t _ h2
        rfl
    · have ho : o2 = o := by
        rw [hp] at hp2
        simp at hp2
        exact hp2.1.symm
      rw [hne2] at he
      rcases List.mem_cons.mp he with rfl | h2
      · rfl
      · rcases List.mem_append.mp h2 with h3 | h4
        · obtain ⟨c, j, _, _, rfl⟩ := preprocessPass_events _ t _ h3
          rfl
        · cases e with
          | managerCreated a b =>
            exfalso
            obtain ⟨hba, _⟩ :=
              migrationPhase_managerCreated requant o2 _ _ a b h4
            rw [ho] at hba
            exact hba h0
          | openTable => rfl
          | putRow c j => rfl
          | prepareCall c b => rfl
          | queryManager => rfl
          | setGaussianDistributionEv => rfl
          | setUniformDistributionEv => rfl
          | setStudentsTDistributionEv nu => rfl
          | setTruncatedGaussianDistributionEv tr => rfl
          | setNormalizationEv n => rfl
          | addColumnEv c b => rfl
          | moveColumnDataEv c => rfl
          | reorderEv => rfl

theorem zero_bitrate_not_checked_before_open_witness :
    (parseArgs ["-data-bit-rate", "0", "ms"] initOptions =
        Except.ok ({ initOptions with
          bitsPerFloat := toUnsigned32 (atoi "0") }, ["ms"]) ∧
      ({ initOptions with
          bitsPerFloat := toUnsigned32 (atoi "0") } : CmdOptions).bitsPerFloat
        = 0) ∧
    ((dscompressRun id ["-data-bit-rate", "0", "ms"] exTable).trace.head? =
        some Event.openTable ∧
      ∀ e ∈ (dscompressRun id ["-data-bit-rate", "0", "ms"] exTable).trace,
        e.isManagerCreation = false) :=
  ⟨⟨rfl, by decide⟩,
   zero_bitrate_not_checked_before_open id ["-data-bit-rate", "0", "ms"]
     exTable _ "ms" [] rfl (by decide)⟩

/-- C3 counterexample: on the concrete request -data-bit-rate 0 over a
table with one flagged cell, no configuration error is raised before the
table is opened for write: the first trace event is the open, the
preprocessing pass mutates the table (a write-back occurs and the table
differs from the input), and the run fails only afterwards, refuting both
the error-before-open and the table-left-untouched parts of the claim. -/
theorem zero_bitrate_counterexample :
    (dscompressRun id ["-data-bit-rate", "0", "ms"] exTable).trace.head? =
      some Event.openTable ∧
    Event.putRow "DATA" 0 ∈
      (dscompressRun id ["-data-bit-rate", "0", "ms"] exTable).trace ∧
    (dscompressRun id ["-data-bit-rate", "0", "ms"] exTable).err.isSome =
      true ∧
    (dscompressRun id ["-data-bit-rate", "0", "ms"] exTable).table ≠
      exTable := by
  decide

end Dysco
